import Mathlib

/-
Shallow embedding of the `invoke` package of hyperledger-fabric-invoke-go:
a request-dispatch and middleware-composition layer for chaincode invoke
calls.  The shared mutable context map `Router.Context` is modelled by
explicit state passing: every handler and middleware receives the context
and returns the (possibly updated) context next to its Response.
-/

namespace Invoke

/-- The part of `shim.ChaincodeStubInterface` the router consumes: the
function name and the ordered parameter list of the incoming call
(`GetFunctionAndParameters`). -/
structure Stub where
  function : String
  params : List String
deriving DecidableEq

/-- Go `stub.GetFunctionAndParameters()` returns the call's function name and
its parameters. -/
def Stub.GetFunctionAndParameters (stub : Stub) : String × List String :=
  (stub.function, stub.params)

/-- Go `pb.Response`: status code (int32), message string and byte payload.
A `nil` Go byte slice is `none`, a present slice is `some` list of bytes. -/
structure Response where
  Status : Int
  Message : String
  Payload : Option (List Nat)
deriving DecidableEq

/-- Helper `Success(status, payload)` from router.go: a Response with the given
status and payload and an empty message. -/
def Success (status : Int) (payload : Option (List Nat)) : Response :=
  { Status := status, Message := "", Payload := payload }

/-- Helper `Error(status, message)` from router.go: a Response with the given
status and message and a nil payload. -/
def Error (status : Int) (message : String) : Response :=
  { Status := status, Message := message, Payload := none }

/-- Go `http.StatusBadRequest`. -/
def StatusBadRequest : Int := 400

/-- Go `http.StatusInternalServerError`. -/
def StatusInternalServerError : Int := 500

/-- A JSON value, the target shape of `json.Unmarshal` in JSONParser.
The concrete unmarshalling function is an external collaborator
(encoding/json) and is passed as a parameter where needed. -/
inductive JsonVal where
  | null
  | bool (b : Bool)
  | num (n : Int)
  | str (s : String)
  | arr (elems : List JsonVal)
  | obj (fields : List (String × JsonVal))

/-- A `time.Time` instant as produced by `time.Parse`, reduced to the
seconds/nanoseconds pair the package ever inspects. -/
structure GoTime where
  sec : Int
  nsec : Int
deriving DecidableEq

/-- The dynamically typed values (`interface{}`) this package stores in
`Router.Context`: `[]int` marker lists (tests), pointers to unmarshalled
JSON values (JSONParser), and timestamps (TimestampParser). -/
inductive CtxVal where
  | intList (xs : List Int)
  | jsonPtr (v : JsonVal)
  | timeVal (t : GoTime)

/-- The context store `map[string]interface{}`, modelled as an
association list. -/
abbrev Ctx := List (String × CtxVal)

/-- Go map read `m[k]`: `none` models the missing-key case. -/
def alistGet {α : Type} : List (String × α) → String → Option α
  | [], _ => none
  | (k, v) :: rest, key => if k = key then some v else alistGet rest key

/-- Go map write `m[k] = v`: replaces the binding if the key is present,
otherwise appends a new one. -/
def alistSet {α : Type} : List (String × α) → String → α → List (String × α)
  | [], key, v => [(key, v)]
  | (k, v') :: rest, key, v =>
      if k = key then (key, v) :: rest else (k, v') :: alistSet rest key v

/-- Go map membership `_, ok := m[k]`. -/
def alistHasKey {α : Type} : List (String × α) → String → Bool
  | [], _ => false
  | (k, _) :: rest, key => k = key || alistHasKey rest key

/-- Type `Handler`: a function handling an invoke call.  The Go signature
`func(shim.ChaincodeStubInterface, []string) pb.Response` mutates the
shared context through a captured Router; here the context is threaded
explicitly. -/
abbrev Handler := Stub → List String → Ctx → Response × Ctx

/-- Type `Middleware`: wraps a handler, receiving the next Handler to call. -/
abbrev Middleware := Stub → List String → Handler → Ctx → Response × Ctx

/-- Method `Handler.use` from handler.go: iterates the middleware list starting
with the last listed (`for i := len(m) - 1; i >= 0; i--`), each step
wrapping the current handler in middleware `m[i]`. -/
def Handler.use (h : Handler) (m : List Middleware) : Handler :=
  m.reverse.foldl (fun h' mw => fun stub args ctx => mw stub args h' ctx) h

/-- Struct `Router` from router.go: the public context store, the registry
`invokeMap` of named handlers, and the global `middlewareChain`. -/
structure Router where
  Context : Ctx
  invokeMap : List (String × Handler)
  middlewareChain : List Middleware

/-- Constructor `NewRouter()`: empty context, empty registry, empty global chain. -/
def NewRouter : Router :=
  { Context := [], invokeMap := [], middlewareChain := [] }

/-- Method `Router.Use`: appends the given middleware to the global chain. -/
def Router.Use (r : Router) (mws : List Middleware) : Router :=
  { r with middlewareChain := r.middlewareChain ++ mws }

/-- Method `Router.RegisterHandler`: stores `h.use(mws...)` in the registry under
`functionName` and returns the stored (composed) handler. -/
def Router.RegisterHandler (r : Router) (functionName : String) (h : Handler)
    (mws : List Middleware) : Router × Handler :=
  let composed := h.use mws
  ({ r with invokeMap := alistSet r.invokeMap functionName composed }, composed)

/-- Method `Router.Invoke` from router.go: looks the function name up in the
registry; if absent returns `Error(400, invalid invoke function ...)`,
otherwise wraps the registered handler in the global middleware chain and
executes it.  The Response is returned next to the updated Router (only
its Context can change, through the chain's writes). -/
def Router.Invoke (r : Router) (stub : Stub) : Response × Router :=
  let (function, args) := stub.GetFunctionAndParameters
  match alistGet r.invokeMap function with
  | none =>
      (Error StatusBadRequest ("invalid invoke function \"" ++ function ++ "\""), r)
  | some fn =>
      let fn' := fn.use r.middlewareChain
      let (result, ctx') := fn' stub args r.Context
      (result, { r with Context := ctx' })

/-- The loop in ArgCounter that writes each expected argument name,
adding a comma when it is not the last. -/
def writeExpectedArgs : List String → String
  | [] => ""
  | [a] => a
  | a :: b :: rest => a ++ ", " ++ writeExpectedArgs (b :: rest)

/-- Middleware factory `ArgCounter` from middleware.go: checks the actual argument count
against the expected names; on mismatch builds the error message and
returns a 400 Error without calling next, otherwise calls next. -/
def ArgCounter (expected : List String) : Middleware :=
  fun stub args next ctx =>
    if args.length ≠ expected.length then
      let msg :=
        "incorrect number of arguments, expected " ++ toString expected.length ++
          (if expected.length > 0 then ": " ++ writeExpectedArgs expected else "")
      (Error StatusBadRequest msg, ctx)
    else
      next stub args ctx

/-- The bounds check `argIndex >= len(args)` guarding the argument access
in both JSONParser and TimestampParser (the error branch is taken exactly
when this holds). -/
def argIndexOutOfRange (argIndex : Int) (args : List String) : Bool :=
  decide (argIndex ≥ (args.length : Int))

/-- Go slice indexing `args[i]` is within bounds iff `0 ≤ i < len(args)`;
outside this range the access panics at run time. -/
def sliceIndexInBounds (i : Int) (n : Nat) : Prop :=
  0 ≤ i ∧ i < (n : Int)

instance (i : Int) (n : Nat) : Decidable (sliceIndexInBounds i n) := by
  unfold sliceIndexInBounds; infer_instance

/-- Middleware factory `JSONParser` from middleware.go.  The Go version captures the Router
to reach its Context; here the context is the threaded state.  The
external `json.Unmarshal` is a parameter.  On an out-of-range index it
returns a 500 Error; on a parse failure a 400 Error; on success it stores
the pointer to the unmarshalled value under `contextKey` and calls next. -/
def JSONParser (unmarshal : String → Except String JsonVal) (argIndex : Int)
    (contextKey : String) : Middleware :=
  fun stub args next ctx =>
    if argIndexOutOfRange argIndex args then
      (Error StatusInternalServerError
        ("error unmarshalling json: argIndex " ++ toString argIndex ++
          " was greater than length of args"), ctx)
    else
      match unmarshal (args.getD argIndex.toNat "") with
      | Except.error e =>
          (Error StatusBadRequest ("error unmarshalling json: " ++ e), ctx)
      | Except.ok v =>
          next stub args (alistSet ctx contextKey (CtxVal.jsonPtr v))

/-- Middleware factory `TimestampParser` from middleware.go, with the external `time.Parse`
(applied to the captured layout string) as a parameter.  Same bounds
check as JSONParser; 400 Error on a parse failure; on success it stores
the timestamp under `contextKey` and calls next. -/
def TimestampParser (timeParse : String → Except String GoTime) (argIndex : Int)
    (contextKey : String) : Middleware :=
  fun stub args next ctx =>
    if argIndexOutOfRange argIndex args then
      (Error StatusInternalServerError
        ("error parsing time: argIndex " ++ toString argIndex ++
          " was greater than length of args"), ctx)
    else
      match timeParse (args.getD argIndex.toNat "") with
      | Except.error e =>
          (Error StatusBadRequest ("error parsing time string: " ++ e), ctx)
      | Except.ok t =>
          next stub args (alistSet ctx contextKey (CtxVal.timeVal t))

/-- The type assertion `.([]int)` the test helpers apply to a context
value (the tests always seed the key with an int list first). -/
def assertIntList (v : Option CtxVal) : List Int :=
  match v with
  | some (CtxVal.intList xs) => xs
  | _ => []

/-- Test helper `mwIntAppender` from the tests: middleware appending a marker value
to the int list stored under `contextKey`, then delegating to next. -/
def mwIntAppender (contextKey : String) (val : Int) : Middleware :=
  fun stub args next ctx =>
    let arr := assertIntList (alistGet ctx contextKey)
    next stub args (alistSet ctx contextKey (CtxVal.intList (arr ++ [val])))

/-- Test helper `hIntAppender` from the tests: a handler appending a marker value to
the int list stored under `contextKey` and returning `Success(200, nil)`. -/
def hIntAppender (contextKey : String) (val : Int) : Handler :=
  fun _ _ ctx =>
    let arr := assertIntList (alistGet ctx contextKey)
    (Success 200 none, alistSet ctx contextKey (CtxVal.intList (arr ++ [val])))

/-- A middleware delegates when its whole effect is a context update
followed by the next stage on the same stub and arguments. -/
def Delegates (m : Middleware) : Prop :=
  ∃ f : Stub → List String → Ctx → Ctx,
    ∀ stub args next ctx, m stub args next ctx = next stub args (f stub args ctx)

/-- A middleware short-circuits when its result never depends on the
next handler it is given. -/
def IgnoresNext (m : Middleware) : Prop :=
  ∀ stub args next next' ctx, m stub args next ctx = m stub args next' ctx

/-- A middleware that stops the chain with a fixed Error, used to
instantiate the short-circuit theorem. -/
def haltErr : Middleware :=
  fun _ _ _ ctx => (Error 403 "stop", ctx)

/-! ## Helper lemmas -/

/-- The reverse-order wrapping loop of `Handler.use` builds the same
handler as a declaration-order right fold over the middleware list. -/
theorem use_eq_foldr (h : Handler) (m : List Middleware) :
    h.use m = m.foldr (fun mw next => fun stub args ctx => mw stub args next ctx) h := by
  unfold Handler.use
  rw [List.foldl_reverse]

theorem use_nil_eq (h : Handler) : h.use [] = h := rfl

theorem use_cons_eq (h : Handler) (m0 : Middleware) (ms : List Middleware) :
    h.use (m0 :: ms) = fun stub args ctx => m0 stub args (h.use ms) ctx := by
  rw [use_eq_foldr, use_eq_foldr]
  rfl

theorem alistGet_set_self {α : Type} (m : List (String × α)) (k : String) (v : α) :
    alistGet (alistSet m k v) k = some v := by
  induction m with
  | nil => simp [alistGet, alistSet]
  | cons p rest ih =>
      obtain ⟨k', v'⟩ := p
      by_cases hk : k' = k
      · simp [alistGet, alistSet, hk]
      · simp [alistGet, alistSet, hk, ih]

theorem alistSet_length_mem {α : Type} (m : List (String × α)) (k : String) (v : α)
    (h : alistHasKey m k = true) : (alistSet m k v).length = m.length := by
  induction m with
  | nil => simp [alistHasKey] at h
  | cons p rest ih =>
      obtain ⟨k', v'⟩ := p
      by_cases hk : k' = k
      · simp [alistSet, hk]
      · simp [alistHasKey, hk] at h
        simp [alistSet, hk, ih h]

theorem alistSet_length_new {α : Type} (m : List (String × α)) (k : String) (v : α)
    (h : alistHasKey m k = false) : (alistSet m k v).length = m.length + 1 := by
  induction m with
  | nil => simp [alistSet]
  | cons p rest ih =>
      obtain ⟨k', v'⟩ := p
      by_cases hk : k' = k
      · simp [alistHasKey, hk] at h
      · simp [alistHasKey, hk] at h
        simp [alistSet, hk, ih h]

theorem intercalate_go_append (s : String) (l : List String) (x y : String) :
    String.intercalate.go (x ++ y) s l = x ++ String.intercalate.go y s l := by
  induction l generalizing y with
  | nil => rfl
  | cons a as ih =>
      show String.intercalate.go (x ++ y ++ s ++ a) s as = _
      rw [String.append_assoc, String.append_assoc, ← String.append_assoc y s a, ih]
      rfl

/-- The comma-writing loop of ArgCounter produces exactly the names
joined by a comma-space separator, with no trailing comma. -/
theorem writeExpectedArgs_eq_intercalate (l : List String) :
    writeExpectedArgs l = String.intercalate ", " l := by
  induction l with
  | nil => rfl
  | cons a rest ih =>
      cases rest with
      | nil => rfl
      | cons b rest' =>
          rw [writeExpectedArgs, ih]
          show a ++ ", " ++ String.intercalate.go b ", " rest' =
            String.intercalate.go (a ++ ", " ++ b) ", " rest'
          rw [String.append_assoc, intercalate_go_append, String.append_assoc]

/-- A concrete router used to instantiate dispatch theorems: context
seeded with an empty marker list, one registered endpoint composed with
two call-specific marker middleware, one global marker middleware. -/
def sampleRouter : Router :=
  { Context := [("test", CtxVal.intList [])],
    invokeMap :=
      [("endpoint",
        (hIntAppender "test" 4).use [mwIntAppender "test" 2, mwIntAppender "test" 3])],
    middlewareChain := [mwIntAppender "test" 1] }

/-! ## Claim theorems -/

/-- C2: `use h [m0, …, mk]`, built by iterating the middleware list in
reverse and wrapping, is the handler that runs `m0` first with the
composition of the remaining stages as its next argument — i.e. the
declaration-order right-fold chain ending in `h`; `use` itself only
builds a function and executes nothing. -/
theorem use_executes_in_declaration_order (h : Handler) (m0 : Middleware)
    (ms : List Middleware) :
    h.use (m0 :: ms) = (fun stub args ctx => m0 stub args (h.use ms) ctx) ∧
    h.use (m0 :: ms) =
      (m0 :: ms).foldr (fun mw next => fun stub args ctx => mw stub args next ctx) h :=
  ⟨use_cons_eq h m0 ms, use_eq_foldr h (m0 :: ms)⟩

/-- C7: composing a handler with an empty middleware sequence returns the
original handler itself, hence a handler with the same Response and the
same context effects on every input. -/
theorem use_empty_is_identity (h : Handler) :
    h.use [] = h ∧ ∀ stub args ctx, h.use [] stub args ctx = h stub args ctx :=
  ⟨rfl, fun _ _ _ => rfl⟩

/-- C1: dispatching to a name registered with call-specific middleware
[m1, m2] under global middleware [g1], where every stage appends its
marker to the shared context slot, produces the marker sequence
[g1, m1, m2, handler]: the global middleware wraps the outside of the
already-composed call-specific handler at dispatch time. -/
theorem invoke_runs_global_before_specific (r : Router) (key name : String)
    (params : List String) (g1v m1v m2v hv : Int)
    (hC : r.Context = [(key, CtxVal.intList [])])
    (hM : r.invokeMap =
      [(name, (hIntAppender key hv).use [mwIntAppender key m1v, mwIntAppender key m2v])])
    (hG : r.middlewareChain = [mwIntAppender key g1v]) :
    alistGet ((r.Invoke ⟨name, params⟩).2).Context key =
        some (CtxVal.intList [g1v, m1v, m2v, hv]) ∧
    (r.Invoke ⟨name, params⟩).1 = Success 200 none := by
  obtain ⟨C, M, G⟩ := r
  simp only at hC hM hG
  subst hC hM hG
  simp [Router.Invoke, Stub.GetFunctionAndParameters, Handler.use, alistGet, alistSet,
    mwIntAppender, hIntAppender, assertIntList]

/-- Witness for C1 at the concrete sample router. -/
theorem invoke_runs_global_before_specific_witness :
    alistGet ((sampleRouter.Invoke ⟨"endpoint", []⟩).2).Context "test" =
        some (CtxVal.intList [1, 2, 3, 4]) ∧
    (sampleRouter.Invoke ⟨"endpoint", []⟩).1 = Success 200 none :=
  invoke_runs_global_before_specific sampleRouter "test" "endpoint" [] 1 2 3 4 rfl rfl rfl

/-- C10: dispatch never changes the registry or the global middleware
list: after `Invoke` both equal their values before, whether or not the
name was registered; only the Context field of the router can differ. -/
theorem invoke_preserves_registry_and_globals (r : Router) (stub : Stub) :
    (r.Invoke stub).2.invokeMap = r.invokeMap ∧
    (r.Invoke stub).2.middlewareChain = r.middlewareChain := by
  obtain ⟨f, p⟩ := stub
  simp only [Router.Invoke, Stub.GetFunctionAndParameters]
  cases h : alistGet r.invokeMap f <;> simp [h]

/-- C4: dispatching a name that is not a registry key returns exactly
`Error(400, invalid invoke function "name")` with the requested name
interpolated, leaving the router (context included) untouched, so no
handler or middleware runs; and when the name is found the dispatcher
returns the chain's Response unmodified, synthesizing no error of its
own. -/
theorem invoke_unregistered_returns_bad_request :
    (∀ r : Router, ∀ stub : Stub, alistGet r.invokeMap stub.function = none →
      r.Invoke stub =
        (Error StatusBadRequest ("invalid invoke function \"" ++ stub.function ++ "\""),
          r)) ∧
    (∀ r : Router, ∀ stub : Stub, ∀ fn, alistGet r.invokeMap stub.function = some fn →
      (r.Invoke stub).1 = ((fn.use r.middlewareChain) stub stub.params r.Context).1) := by
  constructor
  · intro r stub h
    obtain ⟨f, p⟩ := stub
    simp only [Router.Invoke, Stub.GetFunctionAndParameters]
    simp only [Stub.function] at h
    simp [h]
  · intro r stub fn h
    obtain ⟨f, p⟩ := stub
    simp only [Router.Invoke, Stub.GetFunctionAndParameters]
    simp only [Stub.function] at h
    simp [h, Stub.params, Stub.GetFunctionAndParameters]

/-- Witness for C4: the spec's example, dispatching "nothing" against an
empty registry. -/
theorem invoke_unregistered_returns_bad_request_witness :
    NewRouter.Invoke ⟨"nothing", []⟩ =
      (Error 400 "invalid invoke function \"nothing\"", NewRouter) :=
  invoke_unregistered_returns_bad_request.1 NewRouter ⟨"nothing", []⟩ rfl

/-- C5: the argument-count guard returns
`Error(400, incorrect number of arguments, expected N: names)` on a
count mismatch, with the expected names in order joined by comma-space
(no colon when there are no expected names) and without calling next;
on a count match it calls next on the unchanged arguments and returns
its result. -/
theorem argcounter_checks_count :
    (∀ expected args stub next ctx, args.length ≠ expected.length →
      ArgCounter expected stub args next ctx =
        (Error StatusBadRequest
          ("incorrect number of arguments, expected " ++ toString expected.length ++
            (if expected.length > 0 then ": " ++ String.intercalate ", " expected else "")),
          ctx)) ∧
    (∀ expected args stub next ctx, args.length = expected.length →
      ArgCounter expected stub args next ctx = next stub args ctx) := by
  constructor
  · intro expected args stub next ctx hne
    simp [ArgCounter, hne, writeExpectedArgs_eq_intercalate]
  · intro expected args stub next ctx heq
    simp [ArgCounter, heq]

/-- Witness for C5: expected names [a, b] with one actual argument gives
the 400 Error of the spec; with two actual arguments the guard returns
exactly what next returns. -/
theorem argcounter_checks_count_witness :
    ArgCounter ["a", "b"] ⟨"f", ["x"]⟩ ["x"] (hIntAppender "test" 7) [] =
      (Error 400 "incorrect number of arguments, expected 2: a, b", []) ∧
    ArgCounter ["a", "b"] ⟨"f", ["x", "y"]⟩ ["x", "y"] (hIntAppender "test" 7) [] =
      hIntAppender "test" 7 ⟨"f", ["x", "y"]⟩ ["x", "y"] [] := by
  constructor
  · have h := argcounter_checks_count.1 ["a", "b"] ["x"] ⟨"f", ["x"]⟩
      (hIntAppender "test" 7) [] (by decide)
    exact h
  · exact argcounter_checks_count.2 ["a", "b"] ["x", "y"] ⟨"f", ["x", "y"]⟩
      (hIntAppender "test" 7) [] rfl

/-- C8: RegisterHandler returns exactly the composition of the handler
with its middleware, stores that composition in the registry under the
name, and after it the registry has the same size when the name was
already a key and one more entry when it was new; it has no failure
mode. -/
theorem register_handler_stores_composition :
    (∀ r : Router, ∀ name h mws, (r.RegisterHandler name h mws).2 = h.use mws) ∧
    (∀ r : Router, ∀ name h mws,
      alistGet (r.RegisterHandler name h mws).1.invokeMap name = some (h.use mws)) ∧
    (∀ r : Router, ∀ name h mws, alistHasKey r.invokeMap name = true →
      (r.RegisterHandler name h mws).1.invokeMap.length = r.invokeMap.length) ∧
    (∀ r : Router, ∀ name h mws, alistHasKey r.invokeMap name = false →
      (r.RegisterHandler name h mws).1.invokeMap.length = r.invokeMap.length + 1) := by
  refine ⟨fun r name h mws => rfl, fun r name h mws => ?_, fun r name h mws hk => ?_,
    fun r name h mws hk => ?_⟩
  · exact alistGet_set_self r.invokeMap name (h.use mws)
  · exact alistSet_length_mem r.invokeMap name (h.use mws) hk
  · exact alistSet_length_new r.invokeMap name (h.use mws) hk

/-- Witness for C8: registering a new name against the empty registry
grows it to one entry, and re-registering the same name keeps it at
one. -/
theorem register_handler_stores_composition_witness :
    (NewRouter.RegisterHandler "endpoint" (hIntAppender "test" 4) []).1.invokeMap.length =
      NewRouter.invokeMap.length + 1 ∧
    ((NewRouter.RegisterHandler "endpoint" (hIntAppender "test" 4) []).1.RegisterHandler
        "endpoint" (hIntAppender "test" 4) []).1.invokeMap.length =
      (NewRouter.RegisterHandler "endpoint" (hIntAppender "test" 4) []).1.invokeMap.length :=
  ⟨register_handler_stores_composition.2.2.2 NewRouter "endpoint" (hIntAppender "test" 4)
      [] rfl,
    register_handler_stores_composition.2.2.1
      (NewRouter.RegisterHandler "endpoint" (hIntAppender "test" 4) []).1 "endpoint"
      (hIntAppender "test" 4) [] rfl⟩

/-- C3: in a chain whose stages before `mi` delegate, a middleware `mi`
that never consults its next handler determines the chain's whole
result: the final Response and context equal mi's own output at the
context the earlier stages produced, and the result is the same for
every choice of later middleware and terminal handler, so no downstream
stage runs or writes the context. -/
theorem middleware_short_circuits_chain (pre : List Middleware) (mi : Middleware)
    (post post' : List Middleware) (h h' : Handler) (stub : Stub) (args : List String)
    (hpre : ∀ m ∈ pre, Delegates m) (hmi : IgnoresNext mi) :
    ∀ ctx, ∃ ctx1,
      h.use (pre ++ mi :: post) stub args ctx = mi stub args h' ctx1 ∧
      h'.use (pre ++ mi :: post') stub args ctx = mi stub args h' ctx1 := by
  induction pre with
  | nil =>
      intro ctx
      refine ⟨ctx, ?_, ?_⟩
      · rw [List.nil_append, use_cons_eq]
        exact hmi stub args (h.use post) h' ctx
      · rw [List.nil_append, use_cons_eq]
        exact hmi stub args (h'.use post') h' ctx
  | cons m rest ih =>
      intro ctx
      obtain ⟨f, hf⟩ := hpre m (List.mem_cons_self m rest)
      obtain ⟨ctx1, e1, e2⟩ :=
        ih (fun m' hm' => hpre m' (List.mem_cons_of_mem m hm')) (f stub args ctx)
      refine ⟨ctx1, ?_, ?_⟩
      · rw [List.cons_append, use_cons_eq]
        show m stub args (h.use (rest ++ mi :: post)) ctx = mi stub args h' ctx1
        rw [hf]
        exact e1
      · rw [List.cons_append, use_cons_eq]
        show m stub args (h'.use (rest ++ mi :: post')) ctx = mi stub args h' ctx1
        rw [hf]
        exact e2

/-- Witness for C3: a marker middleware, then the halting middleware,
then another marker middleware and a marker handler; the halting stage's
Error is the final result and the chain past it is irrelevant. -/
theorem middleware_short_circuits_chain_witness :
    ∃ ctx1,
      (hIntAppender "test" 3).use
          ([mwIntAppender "test" 1] ++ haltErr :: [mwIntAppender "test" 2])
          ⟨"f", []⟩ [] [("test", CtxVal.intList [])] =
        haltErr ⟨"f", []⟩ [] (hIntAppender "test" 9) ctx1 ∧
      (hIntAppender "test" 9).use ([mwIntAppender "test" 1] ++ haltErr :: [])
          ⟨"f", []⟩ [] [("test", CtxVal.intList [])] =
        haltErr ⟨"f", []⟩ [] (hIntAppender "test" 9) ctx1 :=
  middleware_short_circuits_chain [mwIntAppender "test" 1] haltErr
    [mwIntAppender "test" 2] [] (hIntAppender "test" 3) (hIntAppender "test" 9)
    ⟨"f", []⟩ []
    (by
      intro m hm
      rw [List.mem_singleton] at hm
      subst hm
      exact ⟨fun stub args ctx =>
          alistSet ctx "test"
            (CtxVal.intList (assertIntList (alistGet ctx "test") ++ [1])),
        fun stub args next ctx => rfl⟩)
    (fun stub args next next' ctx => rfl)
    [("test", CtxVal.intList [])]

/-- C6: the JSON-parsing middleware returns a 500 Error naming the index
when it is not below the argument count, without touching the context or
calling next; returns a 400 Error when the argument at a valid index
fails to unmarshal, again without touching the context or calling next;
and on success stores the pointer to the parsed value under the context
key and returns the result of next. -/
theorem jsonparser_error_taxonomy :
    (∀ um i key stub args next ctx, (args.length : Int) ≤ i →
      JSONParser um i key stub args next ctx =
        (Error StatusInternalServerError
          ("error unmarshalling json: argIndex " ++ toString i ++
            " was greater than length of args"), ctx)) ∧
    (∀ um i key stub args next ctx e, 0 ≤ i → i < (args.length : Int) →
      um (args.getD i.toNat "") = Except.error e →
      JSONParser um i key stub args next ctx =
        (Error StatusBadRequest ("error unmarshalling json: " ++ e), ctx)) ∧
    (∀ um i key stub args next ctx v, 0 ≤ i → i < (args.length : Int) →
      um (args.getD i.toNat "") = Except.ok v →
      JSONParser um i key stub args next ctx =
        next stub args (alistSet ctx key (CtxVal.jsonPtr v))) := by
  refine ⟨fun um i key stub args next ctx hle => ?_,
    fun um i key stub args next ctx e h0 hlt hum => ?_,
    fun um i key stub args next ctx v h0 hlt hum => ?_⟩
  · simp [JSONParser, argIndexOutOfRange, ge_iff_le, hle]
  · have hnot : ¬ ((args.length : Int) ≤ i) := not_le.mpr hlt
    unfold JSONParser
    rw [if_neg (by simp [argIndexOutOfRange, ge_iff_le, hnot]), hum]
  · have hnot : ¬ ((args.length : Int) ≤ i) := not_le.mpr hlt
    unfold JSONParser
    rw [if_neg (by simp [argIndexOutOfRange, ge_iff_le, hnot]), hum]

/-- A concrete stand-in for json.Unmarshal: accepts exactly the string 1
as the number 1, rejecting everything else. -/
def sampleUnmarshal (s : String) : Except String JsonVal :=
  if s = "1" then Except.ok (JsonVal.num 1) else Except.error "bad"

/-- Witness for C6: index 5 against one argument gives the 500 Error; a
malformed value at index 0 gives the 400 Error; the value 1 at index 0
is stored under the key k and next runs on the updated context. -/
theorem jsonparser_error_taxonomy_witness :
    JSONParser sampleUnmarshal 5 "k" ⟨"f", ["1"]⟩ ["1"] (hIntAppender "test" 7) [] =
      (Error 500 "error unmarshalling json: argIndex 5 was greater than length of args",
        []) ∧
    JSONParser sampleUnmarshal 0 "k" ⟨"f", ["x"]⟩ ["x"] (hIntAppender "test" 7) [] =
      (Error 400 "error unmarshalling json: bad", []) ∧
    JSONParser sampleUnmarshal 0 "k" ⟨"f", ["1"]⟩ ["1"] (hIntAppender "test" 7) [] =
      hIntAppender "test" 7 ⟨"f", ["1"]⟩ ["1"] [("k", CtxVal.jsonPtr (JsonVal.num 1))] :=
  ⟨jsonparser_error_taxonomy.1 sampleUnmarshal 5 "k" ⟨"f", ["1"]⟩ ["1"]
      (hIntAppender "test" 7) [] (by decide),
    jsonparser_error_taxonomy.2.1 sampleUnmarshal 0 "k" ⟨"f", ["x"]⟩ ["x"]
      (hIntAppender "test" 7) [] "bad" (by decide) (by decide) rfl,
    jsonparser_error_taxonomy.2.2 sampleUnmarshal 0 "k" ⟨"f", ["1"]⟩ ["1"]
      (hIntAppender "test" 7) [] (JsonVal.num 1) (by decide) (by decide) rfl⟩

/-- C9: the guard argIndex >= len(args) shared by JSONParser and
TimestampParser protects the access args[argIndex] only for
non-negative indices: when the guard lets a non-negative index through
the access is in bounds, but every negative index passes the guard while
the access is out of bounds. -/
theorem bounds_guard_misses_negative_index :
    (∀ i : Int, ∀ args : List String, 0 ≤ i → argIndexOutOfRange i args = false →
      sliceIndexInBounds i args.length) ∧
    (∀ i : Int, ∀ args : List String, i < 0 → args ≠ [] →
      argIndexOutOfRange i args = false ∧ ¬ sliceIndexInBounds i args.length) := by
  constructor
  · intro i args h0 hguard
    simp only [argIndexOutOfRange, ge_iff_le, decide_eq_false_iff_not, not_le] at hguard
    exact ⟨h0, hguard⟩
  · intro i args hneg hne
    constructor
    · simp only [argIndexOutOfRange, ge_iff_le, decide_eq_false_iff_not, not_le]
      omega
    · intro hb
      exact absurd hb.1 (not_le.mpr hneg)

/-- Witness for C9: index 0 against one argument passes the guard and is
in bounds; index -1 against one argument also passes the guard yet the
access is out of bounds. -/
theorem bounds_guard_misses_negative_index_witness :
    sliceIndexInBounds 0 (["a"] : List String).length ∧
    (argIndexOutOfRange (-1) ["a"] = false ∧
      ¬ sliceIndexInBounds (-1) (["a"] : List String).length) :=
  ⟨bounds_guard_misses_negative_index.1 0 ["a"] (by decide) (by decide),
    bounds_guard_misses_negative_index.2 (-1) ["a"] (by decide) (by decide)⟩

end Invoke
